import Mathlib

/-!
Shallow embedding of `crates/engine/tree/src/engine.rs` (reth engine handler):
the orchestrating multiplexer `EngineHandler::poll`, the channel-backed
request handler `EngineApiRequestHandler`, the event taxonomy, and
`DownloadRequest::single_block`.

Machine details: `B256` (a 256-bit hash) is `Fin (2 ^ 256)`; Rust's
`HashSet<B256>` is `Finset B256`; the cooperative `Poll` contract is the
two-constructor `Poll` type; async sources (the handler, the incoming-request
stream, the downloader) are modelled as explicit state-passing functions
bundled in `EngineEnv`, and the possibly non-terminating `loop` of
`EngineHandler::poll` takes a fuel argument.  Every interaction with a
collaborator (a handler poll, an input delivered to the handler by
`on_event`, a downloader command, a downloader poll) is recorded in a trace,
so that the ordering guarantees of the loop can be stated as trace
properties.
-/

set_option autoImplicit false

namespace RethEngine

/-- The 256-bit block hash type (`B256` in `reth_primitives`). -/
abbrev B256 : Type := Fin (2 ^ 256)

/-- A request to download blocks from the network (`DownloadRequest`):
either a set of block hashes or a range given by a start hash and a count. -/
inductive DownloadRequest where
  | BlockSet (hashes : Finset B256)
  | BlockRange (start : B256) (count : Nat)
deriving DecidableEq

/-- Model of `HashSet::from` on a list of hashes: duplicates collapse. -/
def hashSetFrom (l : List B256) : Finset B256 :=
  l.toFinset

/-- `DownloadRequest::single_block`: a download request for a single block. -/
def DownloadRequest.single_block (hash : B256) : DownloadRequest :=
  .BlockSet (hashSetFrom [hash])

/-- Modelled from the spec: the opaque orchestrator-level signal
(`FromOrchestrator` in `crate::chain`, which is not under `src/`); the
multiplexer passes it through unchanged, so one opaque constructor is kept. -/
inductive FromOrchestrator where
  | signal
deriving DecidableEq

/-- Events received from the engine (`FromEngine<Req>`): an orchestrator
signal, a request, or downloaded blocks.  `Blk` stands for the opaque
`SealedBlockWithSenders`. -/
inductive FromEngine (Req Blk : Type) where
  | Event (ev : FromOrchestrator)
  | Request (req : Req)
  | DownloadedBlocks (blocks : List Blk)
deriving DecidableEq

/-- Modelled from the spec: the bubble-worthy results of a handler
(`HandlerEvent` in `crate::chain`, which is not under `src/`): a backfill
request carrying an opaque target `Tgt`, an opaque event `Ev`, or a fatal
error. -/
inductive HandlerEvent (Ev Tgt : Type) where
  | BackfillAction (target : Tgt)
  | Event (ev : Ev)
  | FatalError
deriving DecidableEq

/-- Requests produced by an `EngineRequestHandler` (`RequestHandlerEvent<T>`):
a handler event to bubble up, or a request to download blocks. -/
inductive RequestHandlerEvent (Ev Tgt : Type) where
  | HandlerEvent (ev : RethEngine.HandlerEvent Ev Tgt)
  | Download (req : DownloadRequest)
deriving DecidableEq

/-- Modelled from the spec: commands to the downloader (`DownloadAction` in
`crate::download`, which is not under `src/`): clear all pending work, or
start a new download. -/
inductive DownloadAction where
  | Clear
  | Download (req : DownloadRequest)
deriving DecidableEq

/-- Modelled from the spec: outcomes of the downloader (`DownloadOutcome` in
`crate::download`, which is not under `src/`): a batch of downloaded
blocks. -/
inductive DownloadOutcome (Blk : Type) where
  | Blocks (blocks : List Blk)
deriving DecidableEq

/-- The cooperative poll result: `Ready` with a value or `Pending`. -/
inductive Poll (α : Type) where
  | Ready (a : α)
  | Pending
deriving DecidableEq

/-- Outcome of polling a stream (`poll_next`): an item is ready, the stream
is exhausted (`Ready(None)`), or no item is ready yet. -/
inductive StreamPoll (α : Type) where
  | ready (a : α)
  | closed
  | pending
deriving DecidableEq

/-- Events emitted by the engine API handler (`EngineApiEvent`): a consensus
engine event, a backfill action, or a download request. -/
inductive EngineApiEvent (Ev Tgt : Type) where
  | BeaconConsensus (ev : Ev)
  | BackfillAction (action : Tgt)
  | Download (action : DownloadRequest)
deriving DecidableEq

/-- State of `EngineApiRequestHandler`: the `to_tree` channel is modelled as
the list of messages sent so far plus a flag recording whether its receiver
is gone (a `send` then fails); the `from_tree` channel is modelled as the
list of buffered events not yet received plus a flag recording whether the
sender is gone (once the buffer is drained, `poll_recv` then yields `None`). -/
structure EngineApiRequestHandler (Req Ev Tgt Blk : Type) where
  to_tree : List (FromEngine Req Blk)
  to_tree_closed : Bool
  from_tree : List (EngineApiEvent Ev Tgt)
  from_tree_closed : Bool
deriving DecidableEq

/-- `EngineApiRequestHandler::on_event`: delegate the event to the tree by
sending it on `to_tree`; the result of the send is discarded (`let _ = ...`),
so a failed send (receiver gone) leaves the state unchanged and signals
nothing. -/
def EngineApiRequestHandler.on_event {Req Ev Tgt Blk : Type}
    (s : EngineApiRequestHandler Req Ev Tgt Blk) (event : FromEngine Req Blk) :
    EngineApiRequestHandler Req Ev Tgt Blk :=
  if s.to_tree_closed then s else { s with to_tree := s.to_tree ++ [event] }

/-- `EngineApiRequestHandler::poll`: receive the next event from `from_tree`.
A buffered event is translated (`BeaconConsensus` to `HandlerEvent Event`,
`BackfillAction` to `HandlerEvent BackfillAction`, `Download` passed through
as a download request); with no buffered event, a closed channel yields
`FatalError` and an open one is `Pending`. -/
def EngineApiRequestHandler.poll {Req Ev Tgt Blk : Type}
    (s : EngineApiRequestHandler Req Ev Tgt Blk) :
    EngineApiRequestHandler Req Ev Tgt Blk × Poll (RequestHandlerEvent Ev Tgt) :=
  match s.from_tree with
  | [] =>
    if s.from_tree_closed then
      (s, .Ready (.HandlerEvent .FatalError))
    else
      (s, .Pending)
  | ev :: rest =>
    let r : RequestHandlerEvent Ev Tgt :=
      match ev with
      | .BeaconConsensus ev => .HandlerEvent (.Event ev)
      | .BackfillAction action => .HandlerEvent (.BackfillAction action)
      | .Download action => .Download action
    ({ s with from_tree := rest }, .Ready r)

/-- One recorded interaction of the multiplexer with its collaborators. -/
inductive TraceItem (Req Ev Tgt Blk : Type) where
  | input (ev : FromEngine Req Blk)
  | hpoll (r : Poll (RequestHandlerEvent Ev Tgt))
  | daction (a : DownloadAction)
  | dpoll (r : Poll (DownloadOutcome Blk))
deriving DecidableEq

/-- The collaborators of `EngineHandler`, as explicit state-passing
functions: the `EngineRequestHandler` (state `Hs`), the incoming-request
stream (state `Ss`), and the `BlockDownloader` (state `Ds`). -/
structure EngineEnv (Req Ev Tgt Blk Hs Ss Ds : Type) where
  handlerOnEvent : Hs → FromEngine Req Blk → Hs
  handlerPoll : Hs → Hs × Poll (RequestHandlerEvent Ev Tgt)
  streamPoll : Ss → Ss × StreamPoll Req
  downloaderOnAction : Ds → DownloadAction → Ds
  downloaderPoll : Ds → Ds × Poll (DownloadOutcome Blk)

/-- The state owned by `EngineHandler`: the handler, the incoming-request
stream, and the downloader. -/
structure EngineHandler (Hs Ss Ds : Type) where
  handler : Hs
  incoming_requests : Ss
  downloader : Ds
deriving DecidableEq

/-- Result of the inner handler-draining `while` loop. -/
inductive DrainOut (Ev Tgt : Type) where
  | returned (ev : RethEngine.HandlerEvent Ev Tgt)
  | pending
  | outOfFuel
deriving DecidableEq

/-- Result of a full `EngineHandler::poll` call. -/
inductive PollOut (Ev Tgt : Type) where
  | ready (ev : RethEngine.HandlerEvent Ev Tgt)
  | pending
  | outOfFuel
deriving DecidableEq

/-- The inner `while let Poll::Ready(ev) = self.handler.poll(cx)` loop of
`EngineHandler::poll`: a `BackfillAction` sends `DownloadAction::Clear` to
the downloader and exits with the backfill event; an `Event` or `FatalError`
exits with that event; a `Download` request is forwarded to the downloader
as `DownloadAction::Download` and draining continues; handler `Pending` ends
the drain. -/
def drain {Req Ev Tgt Blk Hs Ss Ds : Type}
    (env : EngineEnv Req Ev Tgt Blk Hs Ss Ds) :
    Nat → Hs → Ds → Hs × Ds × List (TraceItem Req Ev Tgt Blk) × DrainOut Ev Tgt
  | 0, h, d => (h, d, [], .outOfFuel)
  | fuel + 1, h, d =>
    let p := env.handlerPoll h
    match p.2 with
    | .Pending => (p.1, d, [.hpoll .Pending], .pending)
    | .Ready (.HandlerEvent (.BackfillAction target)) =>
      (p.1, env.downloaderOnAction d .Clear,
        [.hpoll (.Ready (.HandlerEvent (.BackfillAction target))), .daction .Clear],
        .returned (.BackfillAction target))
    | .Ready (.HandlerEvent (.Event ev)) =>
      (p.1, d, [.hpoll (.Ready (.HandlerEvent (.Event ev)))], .returned (.Event ev))
    | .Ready (.HandlerEvent .FatalError) =>
      (p.1, d, [.hpoll (.Ready (.HandlerEvent .FatalError))], .returned .FatalError)
    | .Ready (.Download req) =>
      let rest := drain env fuel p.1 (env.downloaderOnAction d (.Download req))
      (rest.1, rest.2.1,
        .hpoll (.Ready (.Download req)) :: .daction (.Download req) :: rest.2.2.1,
        rest.2.2.2)

/-- `EngineHandler::poll`, transcribed from the source: loop; drain the
handler first; a drained result is returned to the caller; otherwise pop at
most one incoming request, deliver it to the handler and restart the loop
(skipping the downloader in this iteration); otherwise advance the
downloader, deliver any downloaded blocks to the handler and restart the
loop; otherwise return `Pending`.  The fuel bounds the number of loop
iterations; running out of fuel is reported as `outOfFuel`. -/
def EngineHandler.poll {Req Ev Tgt Blk Hs Ss Ds : Type}
    (env : EngineEnv Req Ev Tgt Blk Hs Ss Ds) :
    Nat → EngineHandler Hs Ss Ds →
      EngineHandler Hs Ss Ds × List (TraceItem Req Ev Tgt Blk) × PollOut Ev Tgt
  | 0, s => (s, [], .outOfFuel)
  | fuel + 1, s =>
    match drain env (fuel + 1) s.handler s.downloader with
    | (h, d, tr, .outOfFuel) => (⟨h, s.incoming_requests, d⟩, tr, .outOfFuel)
    | (h, d, tr, .returned r) => (⟨h, s.incoming_requests, d⟩, tr, .ready r)
    | (h, d, tr, .pending) =>
      match env.streamPoll s.incoming_requests with
      | (ss, .ready req) =>
        let h' := env.handlerOnEvent h (.Request req)
        let rest := EngineHandler.poll env fuel ⟨h', ss, d⟩
        (rest.1, tr ++ .input (.Request req) :: rest.2.1, rest.2.2)
      | (ss, .closed) =>
        match env.downloaderPoll d with
        | (d', .Ready (.Blocks blocks)) =>
          let h' := env.handlerOnEvent h (.DownloadedBlocks blocks)
          let rest := EngineHandler.poll env fuel ⟨h', ss, d'⟩
          (rest.1,
            tr ++ .dpoll (.Ready (.Blocks blocks)) ::
              .input (.DownloadedBlocks blocks) :: rest.2.1,
            rest.2.2)
        | (d', .Pending) => (⟨h, ss, d'⟩, tr ++ [.dpoll .Pending], .pending)
      | (ss, .pending) =>
        match env.downloaderPoll d with
        | (d', .Ready (.Blocks blocks)) =>
          let h' := env.handlerOnEvent h (.DownloadedBlocks blocks)
          let rest := EngineHandler.poll env fuel ⟨h', ss, d'⟩
          (rest.1,
            tr ++ .dpoll (.Ready (.Blocks blocks)) ::
              .input (.DownloadedBlocks blocks) :: rest.2.1,
            rest.2.2)
        | (d', .Pending) => (⟨h, ss, d'⟩, tr ++ [.dpoll .Pending], .pending)

/-- The environment of the composed system built by the repository: an
`EngineHandler` whose request handler is an `EngineApiRequestHandler`, with
the stream and the downloader left abstract. -/
def composedEnv {Req Ev Tgt Blk Ss Ds : Type}
    (streamPoll : Ss → Ss × StreamPoll Req)
    (downloaderOnAction : Ds → DownloadAction → Ds)
    (downloaderPoll : Ds → Ds × Poll (DownloadOutcome Blk)) :
    EngineEnv Req Ev Tgt Blk (EngineApiRequestHandler Req Ev Tgt Blk) Ss Ds where
  handlerOnEvent := EngineApiRequestHandler.on_event
  handlerPoll := EngineApiRequestHandler.poll
  streamPoll := streamPoll
  downloaderOnAction := downloaderOnAction
  downloaderPoll := downloaderPoll

/-- A scripted handler for concrete scenarios: it records every input it is
delivered and answers polls from a fixed script, reporting `Pending` once the
script is exhausted. -/
structure ScriptedHandler where
  received : List (FromEngine Nat Nat)
  script : List (Poll (RequestHandlerEvent Nat Nat))
deriving DecidableEq

/-- A scripted incoming-request stream: a queue of requests plus a closed
flag; an empty open queue is `pending`, an empty closed queue is `closed`. -/
structure ScriptedStream where
  queue : List Nat
  is_closed : Bool
deriving DecidableEq

/-- A scripted downloader: it records every command it receives and answers
polls from a fixed script, reporting `Pending` once the script is
exhausted. -/
structure ScriptedDownloader where
  commands : List DownloadAction
  script : List (Poll (DownloadOutcome Nat))
deriving DecidableEq

/-- The environment assembling the three scripted collaborators, with all
payload types instantiated at `Nat`. -/
def scriptEnv : EngineEnv Nat Nat Nat Nat ScriptedHandler ScriptedStream ScriptedDownloader where
  handlerOnEvent := fun h ev => { h with received := h.received ++ [ev] }
  handlerPoll := fun h =>
    match h.script with
    | [] => (h, .Pending)
    | r :: rest => ({ h with script := rest }, r)
  streamPoll := fun s =>
    match s.queue with
    | [] => (s, if s.is_closed then .closed else .pending)
    | q :: qs => ({ s with queue := qs }, .ready q)
  downloaderOnAction := fun d a => { d with commands := d.commands ++ [a] }
  downloaderPoll := fun d =>
    match d.script with
    | [] => (d, .Pending)
    | r :: rest => ({ d with script := rest }, r)

/-- Does a trace item deliver an input to the handler (an `on_event` call)? -/
def TraceItem.isInput {Req Ev Tgt Blk : Type} : TraceItem Req Ev Tgt Blk → Bool
  | .input _ => true
  | _ => false

/-- Scan state for `drainedBeforeInput`: the result of the most recent
handler poll since the last input delivery, if any. -/
def scanHPoll {Req Ev Tgt Blk : Type}
    (st : Option (Poll (RequestHandlerEvent Ev Tgt))) :
    TraceItem Req Ev Tgt Blk → Option (Poll (RequestHandlerEvent Ev Tgt))
  | .hpoll r => some r
  | .input _ => none
  | _ => st

/-- Drain-before-accept as a trace predicate: every input delivered to the
handler is preceded by a handler poll, and the most recent handler poll
since the last input delivery returned `Pending`. -/
def drainedBeforeInput {Req Ev Tgt Blk : Type}
    (st : Option (Poll (RequestHandlerEvent Ev Tgt))) :
    List (TraceItem Req Ev Tgt Blk) → Bool
  | [] => true
  | it :: rest =>
    (match it, st with
     | .input _, some .Pending => true
     | .input _, _ => false
     | _, _ => true) &&
    drainedBeforeInput (scanHPoll st it) rest

/-- Trace predicate for single-request-per-iteration: every item that
immediately follows an input delivery is a handler poll, so after an input
the multiplexer returns to draining the handler before polling the stream
or the downloader again. -/
def hpollAfterInput {Req Ev Tgt Blk : Type}
    (prevWasInput : Bool) : List (TraceItem Req Ev Tgt Blk) → Bool
  | [] => true
  | it :: rest =>
    (match prevWasInput, it with
     | true, .hpoll _ => true
     | true, _ => false
     | false, _ => true) &&
    hpollAfterInput it.isInput rest

/-- Whether the last trace item is an input delivery (`b` if the list is
empty); the threaded state of `hpollAfterInput`. -/
def lastIsInput {Req Ev Tgt Blk : Type} (b : Bool)
    (l : List (TraceItem Req Ev Tgt Blk)) : Bool :=
  l.foldl (fun _ it => it.isInput) b

/-- Composed environment for concrete runs: stream always pending, trivial
downloader. -/
def envCC : EngineEnv Nat Nat Nat Nat (EngineApiRequestHandler Nat Nat Nat Nat) Unit Unit :=
  composedEnv (fun u => (u, .pending)) (fun u _ => u) (fun u => (u, .Pending))

/-- Composed environment whose incoming-request stream is exhausted
(`poll_next` yields `Ready(None)` forever), with a trivial downloader. -/
def envClosedStream :
    EngineEnv Nat Nat Nat Nat (EngineApiRequestHandler Nat Nat Nat Nat) Unit Unit :=
  composedEnv (fun u => (u, .closed)) (fun u _ => u) (fun u => (u, .Pending))

/-- Composed state whose handler has a closed and drained event-in channel. -/
def stateClosedChannel : EngineHandler (EngineApiRequestHandler Nat Nat Nat Nat) Unit Unit :=
  ⟨⟨[], false, [], true⟩, (), ()⟩

/-- Composed state whose handler has an open, empty event-in channel. -/
def stateOpenChannel : EngineHandler (EngineApiRequestHandler Nat Nat Nat Nat) Unit Unit :=
  ⟨⟨[], false, [], false⟩, (), ()⟩

/-- Scripted state: always-pending handler, two queued incoming requests,
pending downloader. -/
def stateTwoRequests : EngineHandler ScriptedHandler ScriptedStream ScriptedDownloader :=
  ⟨⟨[], []⟩, ⟨[5, 9], false⟩, ⟨[], []⟩⟩

/-- Scripted state: the handler yields one backfill request. -/
def stateBackfill : EngineHandler ScriptedHandler ScriptedStream ScriptedDownloader :=
  ⟨⟨[], [.Ready (.HandlerEvent (.BackfillAction 7))]⟩, ⟨[], false⟩, ⟨[], []⟩⟩

/-- A concrete block hash. -/
def hash1 : B256 := ⟨1, by norm_num⟩

/-- Scripted state for Scenario A: the handler asks for one download, then
is pending; stream and downloader are pending. -/
def stateScenarioA : EngineHandler ScriptedHandler ScriptedStream ScriptedDownloader :=
  ⟨⟨[], [.Ready (.Download (DownloadRequest.single_block hash1))]⟩, ⟨[], false⟩, ⟨[], []⟩⟩

/-! ### Helper lemmas on the trace predicates -/

theorem drainedBeforeInput_append {Req Ev Tgt Blk : Type}
    (l₁ l₂ : List (TraceItem Req Ev Tgt Blk))
    (st : Option (Poll (RequestHandlerEvent Ev Tgt))) :
    drainedBeforeInput st (l₁ ++ l₂) =
      (drainedBeforeInput st l₁ && drainedBeforeInput (l₁.foldl scanHPoll st) l₂) := by
  induction l₁ generalizing st with
  | nil => simp [drainedBeforeInput]
  | cons it rest ih => simp [drainedBeforeInput, ih, Bool.and_assoc]

theorem drainedBeforeInput_of_no_input {Req Ev Tgt Blk : Type}
    (l : List (TraceItem Req Ev Tgt Blk))
    (h : ∀ it ∈ l, it.isInput = false)
    (st : Option (Poll (RequestHandlerEvent Ev Tgt))) :
    drainedBeforeInput st l = true := by
  induction l generalizing st with
  | nil => rfl
  | cons it rest ih =>
    have h1 : it.isInput = false := h it (by simp)
    have h2 : ∀ x ∈ rest, TraceItem.isInput x = false := fun x hx => h x (by simp [hx])
    cases it <;> simp_all [drainedBeforeInput, TraceItem.isInput]

theorem hpollAfterInput_append {Req Ev Tgt Blk : Type}
    (l₁ l₂ : List (TraceItem Req Ev Tgt Blk)) (b : Bool) :
    hpollAfterInput b (l₁ ++ l₂) =
      (hpollAfterInput b l₁ && hpollAfterInput (lastIsInput b l₁) l₂) := by
  induction l₁ generalizing b with
  | nil => simp [hpollAfterInput, lastIsInput]
  | cons it rest ih => simp [hpollAfterInput, lastIsInput, List.foldl, ih, Bool.and_assoc]

theorem hpollAfterInput_of_no_input {Req Ev Tgt Blk : Type}
    (l : List (TraceItem Req Ev Tgt Blk))
    (h : ∀ it ∈ l, it.isInput = false) :
    hpollAfterInput false l = true := by
  induction l with
  | nil => rfl
  | cons it rest ih =>
    have h1 : it.isInput = false := h it (by simp)
    have h2 : ∀ x ∈ rest, TraceItem.isInput x = false := fun x hx => h x (by simp [hx])
    cases it <;> simp_all [hpollAfterInput, TraceItem.isInput]

theorem lastIsInput_of_no_input {Req Ev Tgt Blk : Type}
    (l : List (TraceItem Req Ev Tgt Blk))
    (h : ∀ it ∈ l, it.isInput = false) (b : Bool)
    (hne : l ≠ []) :
    lastIsInput b l = false := by
  induction l generalizing b with
  | nil => exact absurd rfl hne
  | cons it rest ih =>
    have h1 : it.isInput = false := h it (by simp)
    have h2 : ∀ x ∈ rest, TraceItem.isInput x = false := fun x hx => h x (by simp [hx])
    rcases rest with _ | ⟨it2, rest2⟩
    · simp [lastIsInput, List.foldl, h1]
    · simpa [lastIsInput, List.foldl] using ih h2 it.isInput (by simp)

/-! ### Helper lemmas on `drain` -/

theorem drain_no_input {Req Ev Tgt Blk Hs Ss Ds : Type}
    (env : EngineEnv Req Ev Tgt Blk Hs Ss Ds) (fuel : Nat) (h : Hs) (d : Ds) :
    ∀ it ∈ (drain env fuel h d).2.2.1, it.isInput = false := by
  induction fuel generalizing h d with
  | zero => simp [drain]
  | succ n ih =>
    simp only [drain]
    rcases hp : env.handlerPoll h with ⟨h', r⟩
    rcases r with rv | _
    · rcases rv with hev | req
      · rcases hev with tgt | ev | _ <;> simp [TraceItem.isInput]
      · intro it hit
        simp only [List.mem_cons] at hit
        rcases hit with rfl | rfl | hit
        · rfl
        · rfl
        · exact ih h' (env.downloaderOnAction d (.Download req)) it hit
    · simp [TraceItem.isInput]

theorem drain_pending_scan {Req Ev Tgt Blk Hs Ss Ds : Type}
    (env : EngineEnv Req Ev Tgt Blk Hs Ss Ds) (fuel : Nat) (h : Hs) (d : Ds)
    (hp : (drain env fuel h d).2.2.2 = .pending)
    (st : Option (Poll (RequestHandlerEvent Ev Tgt))) :
    (drain env fuel h d).2.2.1.foldl scanHPoll st = some .Pending := by
  induction fuel generalizing h d st with
  | zero => simp [drain] at hp
  | succ n ih =>
    simp only [drain] at hp ⊢
    rcases hq : env.handlerPoll h with ⟨h', r⟩
    rw [hq] at hp
    rcases r with rv | _
    · rcases rv with hev | req
      · rcases hev with tgt | ev | _ <;> simp_all
      · simp only at hp ⊢
        exact ih h' (env.downloaderOnAction d (.Download req)) hp _
    · simp [scanHPoll]

theorem drain_succ_head_hpoll {Req Ev Tgt Blk Hs Ss Ds : Type}
    (env : EngineEnv Req Ev Tgt Blk Hs Ss Ds) (fuel : Nat) (h : Hs) (d : Ds) :
    ∃ r rest, (drain env (fuel + 1) h d).2.2.1 = .hpoll r :: rest := by
  simp only [drain]
  rcases hq : env.handlerPoll h with ⟨h', r⟩
  rcases r with rv | _
  · rcases rv with hev | req
    · rcases hev with tgt | ev | _ <;> exact ⟨_, _, rfl⟩
    · exact ⟨_, _, rfl⟩
  · exact ⟨_, _, rfl⟩

theorem drain_backfill_last_clear {Req Ev Tgt Blk Hs Ss Ds : Type}
    (env : EngineEnv Req Ev Tgt Blk Hs Ss Ds) (fuel : Nat) (h : Hs) (d : Ds)
    (tgt : Tgt)
    (hp : (drain env fuel h d).2.2.2 = .returned (.BackfillAction tgt)) :
    (drain env fuel h d).2.2.1.getLast? = some (.daction .Clear) := by
  induction fuel generalizing h d with
  | zero => simp [drain] at hp
  | succ n ih =>
    simp only [drain] at hp ⊢
    rcases hq : env.handlerPoll h with ⟨h', r⟩
    rw [hq] at hp
    rcases r with rv | _
    · rcases rv with hev | req
      · rcases hev with tgt' | ev | _ <;> simp_all
      · simp only at hp ⊢
        have := ih h' (env.downloaderOnAction d (.Download req)) hp
        rcases hnil : (drain env n h' (env.downloaderOnAction d (.Download req))).2.2.1 with
          _ | ⟨x, xs⟩
        · rw [hnil] at this; simp at this
        · rw [hnil] at this; simpa using this
    · simp_all

theorem drain_clear_mem {Req Ev Tgt Blk Hs Ss Ds : Type}
    (env : EngineEnv Req Ev Tgt Blk Hs Ss Ds) (fuel : Nat) (h : Hs) (d : Ds)
    (hc : @TraceItem.daction Req Ev Tgt Blk DownloadAction.Clear ∈ (drain env fuel h d).2.2.1) :
    ∃ tgt, (drain env fuel h d).2.2.2 = .returned (.BackfillAction tgt) := by
  induction fuel generalizing h d with
  | zero => simp [drain] at hc
  | succ n ih =>
    simp only [drain] at hc ⊢
    rcases hq : env.handlerPoll h with ⟨h', r⟩
    rw [hq] at hc
    rcases r with rv | _
    · rcases rv with hev | req
      · rcases hev with tgt' | ev | _ <;> simp_all
      · simp only [List.mem_cons] at hc
        rcases hc with hc | hc | hc
        · exact absurd hc (by simp)
        · exact absurd hc (by simp)
        · exact ih h' (env.downloaderOnAction d (.Download req)) hc
    · simp_all

/-! ### Helper lemmas on `EngineHandler.poll` -/

theorem poll_succ_outOfFuel {Req Ev Tgt Blk Hs Ss Ds : Type}
    (env : EngineEnv Req Ev Tgt Blk Hs Ss Ds) (n : Nat) (s : EngineHandler Hs Ss Ds)
    {h : Hs} {d : Ds} {tr : List (TraceItem Req Ev Tgt Blk)}
    (hdr : drain env (n + 1) s.handler s.downloader = (h, d, tr, .outOfFuel)) :
    EngineHandler.poll env (n + 1) s = (⟨h, s.incoming_requests, d⟩, tr, .outOfFuel) := by
  simp only [EngineHandler.poll, hdr]

theorem poll_succ_returned {Req Ev Tgt Blk Hs Ss Ds : Type}
    (env : EngineEnv Req Ev Tgt Blk Hs Ss Ds) (n : Nat) (s : EngineHandler Hs Ss Ds)
    {h : Hs} {d : Ds} {tr : List (TraceItem Req Ev Tgt Blk)} {r : HandlerEvent Ev Tgt}
    (hdr : drain env (n + 1) s.handler s.downloader = (h, d, tr, .returned r)) :
    EngineHandler.poll env (n + 1) s = (⟨h, s.incoming_requests, d⟩, tr, .ready r) := by
  simp only [EngineHandler.poll, hdr]

theorem poll_succ_request {Req Ev Tgt Blk Hs Ss Ds : Type}
    (env : EngineEnv Req Ev Tgt Blk Hs Ss Ds) (n : Nat) (s : EngineHandler Hs Ss Ds)
    {h : Hs} {d : Ds} {tr : List (TraceItem Req Ev Tgt Blk)} {ss : Ss} {req : Req}
    (hdr : drain env (n + 1) s.handler s.downloader = (h, d, tr, .pending))
    (hsp : env.streamPoll s.incoming_requests = (ss, .ready req)) :
    EngineHandler.poll env (n + 1) s =
      ((EngineHandler.poll env n ⟨env.handlerOnEvent h (.Request req), ss, d⟩).1,
        tr ++ .input (.Request req) ::
          (EngineHandler.poll env n ⟨env.handlerOnEvent h (.Request req), ss, d⟩).2.1,
        (EngineHandler.poll env n ⟨env.handlerOnEvent h (.Request req), ss, d⟩).2.2) := by
  simp only [EngineHandler.poll, hdr, hsp]

theorem poll_succ_blocks {Req Ev Tgt Blk Hs Ss Ds : Type}
    (env : EngineEnv Req Ev Tgt Blk Hs Ss Ds) (n : Nat) (s : EngineHandler Hs Ss Ds)
    {h : Hs} {d d' : Ds} {tr : List (TraceItem Req Ev Tgt Blk)} {ss : Ss}
    {sr : StreamPoll Req} {blocks : List Blk}
    (hdr : drain env (n + 1) s.handler s.downloader = (h, d, tr, .pending))
    (hsp : env.streamPoll s.incoming_requests = (ss, sr))
    (hsr : sr = .closed ∨ sr = .pending)
    (hdp : env.downloaderPoll d = (d', .Ready (.Blocks blocks))) :
    EngineHandler.poll env (n + 1) s =
      ((EngineHandler.poll env n ⟨env.handlerOnEvent h (.DownloadedBlocks blocks), ss, d'⟩).1,
        tr ++ .dpoll (.Ready (.Blocks blocks)) :: .input (.DownloadedBlocks blocks) ::
          (EngineHandler.poll env n
            ⟨env.handlerOnEvent h (.DownloadedBlocks blocks), ss, d'⟩).2.1,
        (EngineHandler.poll env n
          ⟨env.handlerOnEvent h (.DownloadedBlocks blocks), ss, d'⟩).2.2) := by
  rcases hsr with rfl | rfl <;> simp only [EngineHandler.poll, hdr, hsp, hdp]

theorem poll_succ_pending {Req Ev Tgt Blk Hs Ss Ds : Type}
    (env : EngineEnv Req Ev Tgt Blk Hs Ss Ds) (n : Nat) (s : EngineHandler Hs Ss Ds)
    {h : Hs} {d d' : Ds} {tr : List (TraceItem Req Ev Tgt Blk)} {ss : Ss}
    {sr : StreamPoll Req}
    (hdr : drain env (n + 1) s.handler s.downloader = (h, d, tr, .pending))
    (hsp : env.streamPoll s.incoming_requests = (ss, sr))
    (hsr : sr = .closed ∨ sr = .pending)
    (hdp : env.downloaderPoll d = (d', .Pending)) :
    EngineHandler.poll env (n + 1) s = (⟨h, ss, d'⟩, tr ++ [.dpoll .Pending], .pending) := by
  rcases hsr with rfl | rfl <;> simp only [EngineHandler.poll, hdr, hsp, hdp]

theorem poll_drainedBeforeInput {Req Ev Tgt Blk Hs Ss Ds : Type}
    (env : EngineEnv Req Ev Tgt Blk Hs Ss Ds) (fuel : Nat) (s : EngineHandler Hs Ss Ds) :
    drainedBeforeInput none (EngineHandler.poll env fuel s).2.1 = true := by
  induction fuel generalizing s with
  | zero => rfl
  | succ n ih =>
    rcases hdr : drain env (n + 1) s.handler s.downloader with ⟨h, d, tr, out⟩
    have hno : ∀ it ∈ tr, TraceItem.isInput it = false := by
      have := drain_no_input env (n + 1) s.handler s.downloader
      rw [hdr] at this; exact this
    have htr : drainedBeforeInput none tr = true := drainedBeforeInput_of_no_input tr hno none
    cases out with
    | outOfFuel => rw [poll_succ_outOfFuel env n s hdr]; exact htr
    | returned r => rw [poll_succ_returned env n s hdr]; exact htr
    | pending =>
      have hscan : tr.foldl scanHPoll none = some Poll.Pending := by
        have := drain_pending_scan env (n + 1) s.handler s.downloader (by rw [hdr]) none
        rw [hdr] at this; exact this
      rcases hsp : env.streamPoll s.incoming_requests with ⟨ss, sr⟩
      cases sr with
      | ready req =>
        rw [poll_succ_request env n s hdr hsp]
        simp only [drainedBeforeInput_append, htr, hscan, drainedBeforeInput, scanHPoll,
          Bool.true_and]
        exact ih ⟨env.handlerOnEvent h (.Request req), ss, d⟩
      | closed =>
        rcases hdp : env.downloaderPoll d with ⟨d', dr⟩
        cases dr with
        | Ready o =>
          rcases o with ⟨blocks⟩
          rw [poll_succ_blocks env n s hdr hsp (Or.inl rfl) hdp]
          simp only [drainedBeforeInput_append, htr, hscan, drainedBeforeInput, scanHPoll,
            Bool.true_and]
          exact ih ⟨env.handlerOnEvent h (.DownloadedBlocks blocks), ss, d'⟩
        | Pending =>
          rw [poll_succ_pending env n s hdr hsp (Or.inl rfl) hdp]
          simp [drainedBeforeInput_append, htr, hscan, drainedBeforeInput, scanHPoll]
      | pending =>
        rcases hdp : env.downloaderPoll d with ⟨d', dr⟩
        cases dr with
        | Ready o =>
          rcases o with ⟨blocks⟩
          rw [poll_succ_blocks env n s hdr hsp (Or.inr rfl) hdp]
          simp only [drainedBeforeInput_append, htr, hscan, drainedBeforeInput, scanHPoll,
            Bool.true_and]
          exact ih ⟨env.handlerOnEvent h (.DownloadedBlocks blocks), ss, d'⟩
        | Pending =>
          rw [poll_succ_pending env n s hdr hsp (Or.inr rfl) hdp]
          simp [drainedBeforeInput_append, htr, hscan, drainedBeforeInput, scanHPoll]

theorem hpollAfterInput_true_of_head_hpoll {Req Ev Tgt Blk : Type}
    (l : List (TraceItem Req Ev Tgt Blk))
    (hf : hpollAfterInput false l = true)
    (hh : l = [] ∨ ∃ r rest, l = .hpoll r :: rest) :
    hpollAfterInput true l = true := by
  rcases hh with rfl | ⟨r, rest, rfl⟩
  · rfl
  · simpa [hpollAfterInput, TraceItem.isInput] using hf

theorem poll_hpollAfterInput {Req Ev Tgt Blk Hs Ss Ds : Type}
    (env : EngineEnv Req Ev Tgt Blk Hs Ss Ds) (fuel : Nat) (s : EngineHandler Hs Ss Ds)
    (b : Bool) :
    hpollAfterInput b (EngineHandler.poll env fuel s).2.1 = true := by
  induction fuel generalizing s b with
  | zero => rfl
  | succ n ih =>
    rcases hdr : drain env (n + 1) s.handler s.downloader with ⟨h, d, tr, out⟩
    have hno : ∀ it ∈ tr, TraceItem.isInput it = false := by
      have := drain_no_input env (n + 1) s.handler s.downloader
      rw [hdr] at this; exact this
    have hhead : ∃ r rest, tr = .hpoll r :: rest := by
      have := drain_succ_head_hpoll env n s.handler s.downloader
      rw [hdr] at this; exact this
    have htrb : ∀ b₀ : Bool, hpollAfterInput b₀ tr = true := by
      intro b₀
      cases b₀ with
      | false => exact hpollAfterInput_of_no_input tr hno
      | true =>
        exact hpollAfterInput_true_of_head_hpoll tr (hpollAfterInput_of_no_input tr hno)
          (Or.inr hhead)
    have hlast : lastIsInput b tr = false := by
      rcases hhead with ⟨r, rest, rfl⟩
      exact lastIsInput_of_no_input _ hno b (by simp)
    cases out with
    | outOfFuel => rw [poll_succ_outOfFuel env n s hdr]; exact htrb b
    | returned r => rw [poll_succ_returned env n s hdr]; exact htrb b
    | pending =>
      rcases hsp : env.streamPoll s.incoming_requests with ⟨ss, sr⟩
      cases sr with
      | ready req =>
        rw [poll_succ_request env n s hdr hsp]
        simp only [hpollAfterInput_append, htrb b, hlast, hpollAfterInput,
          TraceItem.isInput, Bool.true_and]
        exact ih ⟨env.handlerOnEvent h (.Request req), ss, d⟩ true
      | closed =>
        rcases hdp : env.downloaderPoll d with ⟨d', dr⟩
        cases dr with
        | Ready o =>
          rcases o with ⟨blocks⟩
          rw [poll_succ_blocks env n s hdr hsp (Or.inl rfl) hdp]
          simp only [hpollAfterInput_append, htrb b, hlast, hpollAfterInput,
            TraceItem.isInput, Bool.true_and]
          exact ih ⟨env.handlerOnEvent h (.DownloadedBlocks blocks), ss, d'⟩ true
        | Pending =>
          rw [poll_succ_pending env n s hdr hsp (Or.inl rfl) hdp]
          simp [hpollAfterInput_append, htrb b, hlast, hpollAfterInput, TraceItem.isInput]
      | pending =>
        rcases hdp : env.downloaderPoll d with ⟨d', dr⟩
        cases dr with
        | Ready o =>
          rcases o with ⟨blocks⟩
          rw [poll_succ_blocks env n s hdr hsp (Or.inr rfl) hdp]
          simp only [hpollAfterInput_append, htrb b, hlast, hpollAfterInput,
            TraceItem.isInput, Bool.true_and]
          exact ih ⟨env.handlerOnEvent h (.DownloadedBlocks blocks), ss, d'⟩ true
        | Pending =>
          rw [poll_succ_pending env n s hdr hsp (Or.inr rfl) hdp]
          simp [hpollAfterInput_append, htrb b, hlast, hpollAfterInput, TraceItem.isInput]

theorem poll_backfill_last_clear {Req Ev Tgt Blk Hs Ss Ds : Type}
    (env : EngineEnv Req Ev Tgt Blk Hs Ss Ds) (fuel : Nat) (s : EngineHandler Hs Ss Ds)
    (tgt : Tgt)
    (hout : (EngineHandler.poll env fuel s).2.2 = .ready (.BackfillAction tgt)) :
    (EngineHandler.poll env fuel s).2.1.getLast? = some (.daction .Clear) := by
  induction fuel generalizing s with
  | zero => simp [EngineHandler.poll] at hout
  | succ n ih =>
    rcases hdr : drain env (n + 1) s.handler s.downloader with ⟨h, d, tr, out⟩
    cases out with
    | outOfFuel => rw [poll_succ_outOfFuel env n s hdr] at hout ⊢; simp at hout
    | returned r =>
      rw [poll_succ_returned env n s hdr] at hout ⊢
      simp only at hout ⊢
      have hr : r = HandlerEvent.BackfillAction tgt := by
        cases hout; rfl
      subst hr
      have := drain_backfill_last_clear env (n + 1) s.handler s.downloader tgt (by rw [hdr])
      rw [hdr] at this; exact this
    | pending =>
      rcases hsp : env.streamPoll s.incoming_requests with ⟨ss, sr⟩
      cases sr with
      | ready req =>
        rw [poll_succ_request env n s hdr hsp] at hout ⊢
        simp only at hout ⊢
        rw [List.getLast?_append_cons]
        have := ih ⟨env.handlerOnEvent h (.Request req), ss, d⟩ hout
        rcases hnil : (EngineHandler.poll env n
            ⟨env.handlerOnEvent h (.Request req), ss, d⟩).2.1 with _ | ⟨x, xs⟩
        · rw [hnil] at this; simp at this
        · rw [hnil] at this; simpa using this
      | closed =>
        rcases hdp : env.downloaderPoll d with ⟨d', dr⟩
        cases dr with
        | Ready o =>
          rcases o with ⟨blocks⟩
          rw [poll_succ_blocks env n s hdr hsp (Or.inl rfl) hdp] at hout ⊢
          simp only at hout ⊢
          rw [List.getLast?_append_cons]
          have := ih ⟨env.handlerOnEvent h (.DownloadedBlocks blocks), ss, d'⟩ hout
          rcases hnil : (EngineHandler.poll env n
              ⟨env.handlerOnEvent h (.DownloadedBlocks blocks), ss, d'⟩).2.1 with _ | ⟨x, xs⟩
          · rw [hnil] at this; simp at this
          · rw [hnil] at this; simpa using this
        | Pending =>
          rw [poll_succ_pending env n s hdr hsp (Or.inl rfl) hdp] at hout; simp at hout
      | pending =>
        rcases hdp : env.downloaderPoll d with ⟨d', dr⟩
        cases dr with
        | Ready o =>
          rcases o with ⟨blocks⟩
          rw [poll_succ_blocks env n s hdr hsp (Or.inr rfl) hdp] at hout ⊢
          simp only at hout ⊢
          rw [List.getLast?_append_cons]
          have := ih ⟨env.handlerOnEvent h (.DownloadedBlocks blocks), ss, d'⟩ hout
          rcases hnil : (EngineHandler.poll env n
              ⟨env.handlerOnEvent h (.DownloadedBlocks blocks), ss, d'⟩).2.1 with _ | ⟨x, xs⟩
          · rw [hnil] at this; simp at this
          · rw [hnil] at this; simpa using this
        | Pending =>
          rw [poll_succ_pending env n s hdr hsp (Or.inr rfl) hdp] at hout; simp at hout

theorem poll_clear_mem {Req Ev Tgt Blk Hs Ss Ds : Type}
    (env : EngineEnv Req Ev Tgt Blk Hs Ss Ds) (fuel : Nat) (s : EngineHandler Hs Ss Ds)
    (hc : @TraceItem.daction Req Ev Tgt Blk DownloadAction.Clear ∈ (EngineHandler.poll env fuel s).2.1) :
    ∃ tgt, (EngineHandler.poll env fuel s).2.2 = .ready (.BackfillAction tgt) := by
  induction fuel generalizing s with
  | zero => simp [EngineHandler.poll] at hc
  | succ n ih =>
    rcases hdr : drain env (n + 1) s.handler s.downloader with ⟨h, d, tr, out⟩
    have hmem : @TraceItem.daction Req Ev Tgt Blk DownloadAction.Clear ∈ tr →
        ∃ tgt, out = DrainOut.returned (.BackfillAction tgt) := by
      intro hm
      have := drain_clear_mem env (n + 1) s.handler s.downloader (by rw [hdr]; exact hm)
      rw [hdr] at this; exact this
    cases out with
    | outOfFuel =>
      rw [poll_succ_outOfFuel env n s hdr] at hc
      rcases hmem hc with ⟨tgt, htgt⟩
      simp at htgt
    | returned r =>
      rw [poll_succ_returned env n s hdr] at hc ⊢
      rcases hmem hc with ⟨tgt, htgt⟩
      have : r = HandlerEvent.BackfillAction tgt := by cases htgt; rfl
      exact ⟨tgt, by simp [this]⟩
    | pending =>
      rcases hsp : env.streamPoll s.incoming_requests with ⟨ss, sr⟩
      cases sr with
      | ready req =>
        rw [poll_succ_request env n s hdr hsp] at hc ⊢
        simp only [List.mem_append, List.mem_cons] at hc
        rcases hc with hc | hc | hc
        · rcases hmem hc with ⟨tgt, htgt⟩; simp at htgt
        · exact absurd hc (by simp)
        · exact ih ⟨env.handlerOnEvent h (.Request req), ss, d⟩ hc
      | closed =>
        rcases hdp : env.downloaderPoll d with ⟨d', dr⟩
        cases dr with
        | Ready o =>
          rcases o with ⟨blocks⟩
          rw [poll_succ_blocks env n s hdr hsp (Or.inl rfl) hdp] at hc ⊢
          simp only [List.mem_append, List.mem_cons] at hc
          rcases hc with hc | hc | hc | hc
          · rcases hmem hc with ⟨tgt, htgt⟩; simp at htgt
          · exact absurd hc (by simp)
          · exact absurd hc (by simp)
          · exact ih ⟨env.handlerOnEvent h (.DownloadedBlocks blocks), ss, d'⟩ hc
        | Pending =>
          rw [poll_succ_pending env n s hdr hsp (Or.inl rfl) hdp] at hc
          simp only [List.mem_append, List.mem_cons] at hc
          rcases hc with hc | hc
          · rcases hmem hc with ⟨tgt, htgt⟩; simp at htgt
          · simp at hc
      | pending =>
        rcases hdp : env.downloaderPoll d with ⟨d', dr⟩
        cases dr with
        | Ready o =>
          rcases o with ⟨blocks⟩
          rw [poll_succ_blocks env n s hdr hsp (Or.inr rfl) hdp] at hc ⊢
          simp only [List.mem_append, List.mem_cons] at hc
          rcases hc with hc | hc | hc | hc
          · rcases hmem hc with ⟨tgt, htgt⟩; simp at htgt
          · exact absurd hc (by simp)
          · exact absurd hc (by simp)
          · exact ih ⟨env.handlerOnEvent h (.DownloadedBlocks blocks), ss, d'⟩ hc
        | Pending =>
          rw [poll_succ_pending env n s hdr hsp (Or.inr rfl) hdp] at hc
          simp only [List.mem_append, List.mem_cons] at hc
          rcases hc with hc | hc
          · rcases hmem hc with ⟨tgt, htgt⟩; simp at htgt
          · simp at hc

/-! ### Helper lemmas on the composed system -/

theorem api_poll_fatal_inv {Req Ev Tgt Blk : Type}
    (s s₂ : EngineApiRequestHandler Req Ev Tgt Blk)
    (hp : EngineApiRequestHandler.poll s = (s₂, .Ready (.HandlerEvent .FatalError))) :
    s₂ = s ∧ s.from_tree = [] ∧ s.from_tree_closed = true := by
  rcases s with ⟨t, tc, ft, fc⟩
  rcases ft with _ | ⟨ev, rest⟩
  · cases fc with
    | true =>
      refine ⟨?_, rfl, rfl⟩
      simpa [EngineApiRequestHandler.poll] using hp.symm
    | false => simp [EngineApiRequestHandler.poll] at hp
  · rcases ev with ev | tgt | req <;> simp [EngineApiRequestHandler.poll] at hp

theorem api_poll_closed {Req Ev Tgt Blk : Type}
    (s : EngineApiRequestHandler Req Ev Tgt Blk)
    (h1 : s.from_tree = []) (h2 : s.from_tree_closed = true) :
    EngineApiRequestHandler.poll s = (s, .Ready (.HandlerEvent .FatalError)) := by
  rcases s with ⟨t, tc, ft, fc⟩
  simp only at h1 h2
  subst h1; subst h2
  rfl

theorem drain_composed_fatal {Req Ev Tgt Blk Ss Ds : Type}
    (sp : Ss → Ss × StreamPoll Req) (da : Ds → DownloadAction → Ds)
    (dp : Ds → Ds × Poll (DownloadOutcome Blk)) (fuel : Nat)
    (h : EngineApiRequestHandler Req Ev Tgt Blk) (d : Ds)
    (hf : (drain (composedEnv sp da dp) fuel h d).2.2.2 = .returned .FatalError) :
    (drain (composedEnv sp da dp) fuel h d).1.from_tree = [] ∧
      (drain (composedEnv sp da dp) fuel h d).1.from_tree_closed = true := by
  induction fuel generalizing h d with
  | zero => simp [drain] at hf
  | succ n ih =>
    simp only [drain] at hf ⊢
    rcases hq : (composedEnv sp da dp).handlerPoll h with ⟨h', r⟩
    rw [hq] at hf
    rcases r with rv | _
    · rcases rv with hev | req
      · rcases hev with tgt | ev | _
        · simp at hf
        · simp at hf
        · have : EngineApiRequestHandler.poll h =
              (h', .Ready (.HandlerEvent .FatalError)) := hq
          have hinv := api_poll_fatal_inv h h' this
          simp [hinv.1, hinv.2.1, hinv.2.2]
      · simp only at hf ⊢
        exact ih h' ((composedEnv sp da dp).downloaderOnAction d (.Download req)) hf
    · simp at hf

theorem poll_composed_fatal_inv {Req Ev Tgt Blk Ss Ds : Type}
    (sp : Ss → Ss × StreamPoll Req) (da : Ds → DownloadAction → Ds)
    (dp : Ds → Ds × Poll (DownloadOutcome Blk)) (fuel : Nat)
    (s : EngineHandler (EngineApiRequestHandler Req Ev Tgt Blk) Ss Ds)
    (hf : (EngineHandler.poll (composedEnv sp da dp) fuel s).2.2 = .ready .FatalError) :
    (EngineHandler.poll (composedEnv sp da dp) fuel s).1.handler.from_tree = [] ∧
      (EngineHandler.poll (composedEnv sp da dp) fuel s).1.handler.from_tree_closed
        = true := by
  induction fuel generalizing s with
  | zero => simp [EngineHandler.poll] at hf
  | succ n ih =>
    rcases hdr : drain (composedEnv sp da dp) (n + 1) s.handler s.downloader
      with ⟨h, d, tr, out⟩
    cases out with
    | outOfFuel =>
      rw [poll_succ_outOfFuel (composedEnv sp da dp) n s hdr] at hf; simp at hf
    | returned r =>
      rw [poll_succ_returned (composedEnv sp da dp) n s hdr] at hf ⊢
      simp only at hf ⊢
      have : r = HandlerEvent.FatalError := by cases hf; rfl
      subst this
      have := drain_composed_fatal sp da dp (n + 1) s.handler s.downloader (by rw [hdr])
      rw [hdr] at this; exact this
    | pending =>
      rcases hsp : (composedEnv sp da dp).streamPoll s.incoming_requests with ⟨ss, sr⟩
      cases sr with
      | ready req =>
        rw [poll_succ_request (composedEnv sp da dp) n s hdr hsp] at hf ⊢
        exact ih _ hf
      | closed =>
        rcases hdp : (composedEnv sp da dp).downloaderPoll d with ⟨d', dr⟩
        cases dr with
        | Ready o =>
          rcases o with ⟨blocks⟩
          rw [poll_succ_blocks (composedEnv sp da dp) n s hdr hsp (Or.inl rfl) hdp]
            at hf ⊢
          exact ih _ hf
        | Pending =>
          rw [poll_succ_pending (composedEnv sp da dp) n s hdr hsp (Or.inl rfl) hdp] at hf
          simp at hf
      | pending =>
        rcases hdp : (composedEnv sp da dp).downloaderPoll d with ⟨d', dr⟩
        cases dr with
        | Ready o =>
          rcases o with ⟨blocks⟩
          rw [poll_succ_blocks (composedEnv sp da dp) n s hdr hsp (Or.inr rfl) hdp]
            at hf ⊢
          exact ih _ hf
        | Pending =>
          rw [poll_succ_pending (composedEnv sp da dp) n s hdr hsp (Or.inr rfl) hdp] at hf
          simp at hf

theorem poll_composed_terminal {Req Ev Tgt Blk Ss Ds : Type}
    (sp : Ss → Ss × StreamPoll Req) (da : Ds → DownloadAction → Ds)
    (dp : Ds → Ds × Poll (DownloadOutcome Blk)) (n : Nat)
    (s : EngineHandler (EngineApiRequestHandler Req Ev Tgt Blk) Ss Ds)
    (h1 : s.handler.from_tree = []) (h2 : s.handler.from_tree_closed = true) :
    EngineHandler.poll (composedEnv sp da dp) (n + 1) s =
      (s, [.hpoll (.Ready (.HandlerEvent .FatalError))], .ready .FatalError) := by
  have hq : (composedEnv sp da dp).handlerPoll s.handler =
      (s.handler, .Ready (.HandlerEvent .FatalError)) :=
    api_poll_closed s.handler h1 h2
  have hdr : drain (composedEnv sp da dp) (n + 1) s.handler s.downloader =
      (s.handler, s.downloader, [.hpoll (.Ready (.HandlerEvent .FatalError))],
        .returned .FatalError) := by
    simp only [drain, hq]
  rw [poll_succ_returned (composedEnv sp da dp) n s hdr]

/-! ### Claim theorems -/

/-- C1: for the system built by this file (the multiplexer over the
channel-backed handler), once a `poll` call has returned `Ready(FatalError)`
every subsequent `poll` call delivers no input to the handler: it leaves the
state unchanged, its trace is a single handler poll (no `on_event` call),
and it returns `Ready(FatalError)` again — an idempotent terminal state. -/
theorem claim_C1_fatal_error_is_terminal {Req Ev Tgt Blk Ss Ds : Type}
    (sp : Ss → Ss × StreamPoll Req) (da : Ds → DownloadAction → Ds)
    (dp : Ds → Ds × Poll (DownloadOutcome Blk)) (fuel fuelNext : Nat)
    (s : EngineHandler (EngineApiRequestHandler Req Ev Tgt Blk) Ss Ds)
    (hf : (EngineHandler.poll (composedEnv sp da dp) fuel s).2.2 = .ready .FatalError) :
    EngineHandler.poll (composedEnv sp da dp) (fuelNext + 1)
        (EngineHandler.poll (composedEnv sp da dp) fuel s).1 =
      ((EngineHandler.poll (composedEnv sp da dp) fuel s).1,
        [.hpoll (.Ready (.HandlerEvent .FatalError))], .ready .FatalError) ∧
    ∀ it ∈ (EngineHandler.poll (composedEnv sp da dp) (fuelNext + 1)
        (EngineHandler.poll (composedEnv sp da dp) fuel s).1).2.1,
      TraceItem.isInput it = false := by
  have hinv := poll_composed_fatal_inv sp da dp fuel s hf
  have hterm := poll_composed_terminal sp da dp fuelNext
    (EngineHandler.poll (composedEnv sp da dp) fuel s).1 hinv.1 hinv.2
  refine ⟨hterm, ?_⟩
  rw [hterm]
  simp [TraceItem.isInput]

/-- C1 witness: a concrete closed-and-drained event-in channel; the first
poll returns `FatalError` and the next poll is the idempotent terminal
step. -/
theorem claim_C1_witness :
    (EngineHandler.poll envCC 1 stateClosedChannel).2.2 = .ready .FatalError ∧
    (EngineHandler.poll envCC (0 + 1) (EngineHandler.poll envCC 1 stateClosedChannel).1 =
      ((EngineHandler.poll envCC 1 stateClosedChannel).1,
        [.hpoll (.Ready (.HandlerEvent .FatalError))], .ready .FatalError) ∧
    ∀ it ∈ (EngineHandler.poll envCC (0 + 1)
        (EngineHandler.poll envCC 1 stateClosedChannel).1).2.1,
      TraceItem.isInput it = false) :=
  ⟨by decide,
    claim_C1_fatal_error_is_terminal (fun u => (u, .pending)) (fun u _ => u)
      (fun u => (u, .Pending)) 1 0 stateClosedChannel (by decide)⟩

/-- C2: whenever `poll` returns `Ready(BackfillAction(target))`, the last
recorded interaction of that step is `DownloadAction::Clear` sent to the
downloader — the clear command is issued strictly before the return. -/
theorem claim_C2_clear_before_backfill {Req Ev Tgt Blk Hs Ss Ds : Type}
    (env : EngineEnv Req Ev Tgt Blk Hs Ss Ds) (fuel : Nat) (s : EngineHandler Hs Ss Ds)
    (tgt : Tgt)
    (hout : (EngineHandler.poll env fuel s).2.2 = .ready (.BackfillAction tgt)) :
    (EngineHandler.poll env fuel s).2.1.getLast? = some (.daction .Clear) :=
  poll_backfill_last_clear env fuel s tgt hout

/-- C2 witness: a handler scripted to yield one backfill request. -/
theorem claim_C2_witness :
    (EngineHandler.poll scriptEnv 1 stateBackfill).2.2 = .ready (.BackfillAction 7) ∧
    (EngineHandler.poll scriptEnv 1 stateBackfill).2.1.getLast? =
      some (.daction .Clear) :=
  ⟨by decide, claim_C2_clear_before_backfill scriptEnv 1 stateBackfill 7 (by decide)⟩

/-- C3: in every `poll` invocation, no incoming request and no download
outcome is delivered to the handler (`on_event`) unless the most recent
handler poll since the last delivery returned `Pending`: the handler is
always drained to `Pending` before new external input is accepted. -/
theorem claim_C3_drain_before_accept {Req Ev Tgt Blk Hs Ss Ds : Type}
    (env : EngineEnv Req Ev Tgt Blk Hs Ss Ds) (fuel : Nat) (s : EngineHandler Hs Ss Ds) :
    drainedBeforeInput none (EngineHandler.poll env fuel s).2.1 = true :=
  poll_drainedBeforeInput env fuel s

/-- C4: the channel-backed handler's `poll` is a pure translation layer: a
closed, drained event-in channel yields `FatalError`; a consensus event, a
backfill request and a download request are each passed through unchanged. -/
theorem claim_C4_channel_poll_translation {Req Ev Tgt Blk : Type}
    (t : List (FromEngine Req Blk)) (tc c : Bool) (rest : List (EngineApiEvent Ev Tgt))
    (ev : Ev) (tgt : Tgt) (req : DownloadRequest) :
    EngineApiRequestHandler.poll
        (⟨t, tc, [], true⟩ : EngineApiRequestHandler Req Ev Tgt Blk) =
      (⟨t, tc, [], true⟩, .Ready (.HandlerEvent .FatalError)) ∧
    EngineApiRequestHandler.poll
        (⟨t, tc, .BeaconConsensus ev :: rest, c⟩ : EngineApiRequestHandler Req Ev Tgt Blk) =
      (⟨t, tc, rest, c⟩, .Ready (.HandlerEvent (.Event ev))) ∧
    EngineApiRequestHandler.poll
        (⟨t, tc, .BackfillAction tgt :: rest, c⟩ : EngineApiRequestHandler Req Ev Tgt Blk) =
      (⟨t, tc, rest, c⟩, .Ready (.HandlerEvent (.BackfillAction tgt))) ∧
    EngineApiRequestHandler.poll
        (⟨t, tc, .Download req :: rest, c⟩ : EngineApiRequestHandler Req Ev Tgt Blk) =
      (⟨t, tc, rest, c⟩, .Ready (.Download req)) :=
  ⟨rfl, rfl, rfl, rfl⟩

/-- C5 counterexample: with the incoming-request source closed (end of
stream), an open empty event-in channel and a pending downloader, `poll`
returns `Pending`, not `Ready(FatalError)`: closing the incoming-request
source alone does not surface a fatal error. -/
theorem claim_C5_counterexample :
    (EngineHandler.poll envClosedStream 3 stateOpenChannel).2.2 = .pending ∧
    (EngineHandler.poll envClosedStream 3 stateOpenChannel).2.2 ≠
      .ready .FatalError := by
  exact ⟨by decide, by decide⟩

/-- C5 (amended): shutdown surfaces as `FatalError` through the handler's
event-in channel: when that channel is closed and drained, `poll` returns
`Ready(FatalError)`; closing the incoming-request source alone is silently
skipped and `poll` returns `Pending` (with no request delivery). -/
theorem claim_C5_shutdown_via_event_channel {Req Ev Tgt Blk Ss Ds : Type}
    (sp : Ss → Ss × StreamPoll Req) (da : Ds → DownloadAction → Ds)
    (dp : Ds → Ds × Poll (DownloadOutcome Blk)) (n : Nat)
    (t : List (FromEngine Req Blk)) (tc : Bool) (ss : Ss) (ds : Ds) :
    EngineHandler.poll (composedEnv sp da dp) (n + 1)
        (⟨⟨t, tc, [], true⟩, ss, ds⟩ :
          EngineHandler (EngineApiRequestHandler Req Ev Tgt Blk) Ss Ds) =
      (⟨⟨t, tc, [], true⟩, ss, ds⟩, [.hpoll (.Ready (.HandlerEvent .FatalError))],
        .ready .FatalError) ∧
    (EngineHandler.poll envClosedStream 3 stateOpenChannel).2.2 = .pending :=
  ⟨poll_composed_terminal sp da dp n ⟨⟨t, tc, [], true⟩, ss, ds⟩ rfl rfl, by decide⟩

/-- C6: a failed enqueue on the command-out channel is swallowed: `on_event`
with a closed `to_tree` leaves the handler state unchanged and signals
nothing; the `poll` outcome does not depend on the `to_tree` failure at all;
the fatal condition surfaces only through `poll` once the event-in channel
is closed. -/
theorem claim_C6_enqueue_failure_swallowed {Req Ev Tgt Blk : Type}
    (t : List (FromEngine Req Blk)) (f : List (EngineApiEvent Ev Tgt)) (b b' c : Bool)
    (ev : FromEngine Req Blk) :
    EngineApiRequestHandler.on_event
        (⟨t, true, f, c⟩ : EngineApiRequestHandler Req Ev Tgt Blk) ev = ⟨t, true, f, c⟩ ∧
    (EngineApiRequestHandler.poll
        (⟨t, b, f, c⟩ : EngineApiRequestHandler Req Ev Tgt Blk)).2 =
      (EngineApiRequestHandler.poll
        (⟨t, b', f, c⟩ : EngineApiRequestHandler Req Ev Tgt Blk)).2 ∧
    (EngineApiRequestHandler.poll
        (⟨t, b, [], true⟩ : EngineApiRequestHandler Req Ev Tgt Blk)).2 =
      .Ready (.HandlerEvent .FatalError) := by
  refine ⟨by simp [EngineApiRequestHandler.on_event], ?_, rfl⟩
  rcases f with _ | ⟨e, rest⟩
  · rcases c <;> rfl
  · rcases e <;> rfl

/-- C7: single request per iteration: in every `poll`, any interaction that
immediately follows an input delivery is a handler poll (the loop restarts
at draining, skipping the downloader); concretely, with an always-pending
handler and two queued requests one request is delivered per iteration, the
handler is re-polled between them, and the downloader is only polled after
the queue is exhausted. -/
theorem claim_C7_single_request_per_iteration :
    (∀ (Req Ev Tgt Blk Hs Ss Ds : Type)
        (env : EngineEnv Req Ev Tgt Blk Hs Ss Ds) (fuel : Nat)
        (s : EngineHandler Hs Ss Ds),
      hpollAfterInput false (EngineHandler.poll env fuel s).2.1 = true) ∧
    (EngineHandler.poll scriptEnv 3 stateTwoRequests).2.1 =
      [.hpoll .Pending, .input (.Request 5), .hpoll .Pending, .input (.Request 9),
        .hpoll .Pending, .dpoll .Pending] ∧
    (EngineHandler.poll scriptEnv 3 stateTwoRequests).1.handler.received =
      [.Request 5, .Request 9] ∧
    (EngineHandler.poll scriptEnv 3 stateTwoRequests).2.2 = .pending := by
  refine ⟨?_, by decide, by decide, by decide⟩
  intro Req Ev Tgt Blk Hs Ss Ds env fuel s
  exact poll_hpollAfterInput env fuel s false

/-- C8: `DownloadRequest::single_block` builds a one-element hash set
containing exactly the given hash, and building the set from the duplicate
list `[h, h]` also yields a one-element set. -/
theorem claim_C8_single_block_one_element (h : B256) :
    DownloadRequest.single_block h = .BlockSet {h} ∧
    (hashSetFrom [h]).card = 1 ∧ h ∈ hashSetFrom [h] ∧
    (hashSetFrom [h, h]).card = 1 ∧ hashSetFrom [h, h] = {h} := by
  refine ⟨?_, ?_, ?_, ?_, ?_⟩ <;> simp [DownloadRequest.single_block, hashSetFrom]

/-- C9: when the handler yields a download request, the multiplexer forwards
it unchanged to the downloader as `DownloadAction::Download` and keeps
draining the handler instead of returning; concretely (Scenario A), a
handler that asks for one block and then is pending leaves the downloader
with exactly that start command and the poll returns `Pending`. -/
theorem claim_C9_download_needed_forwarded :
    (∀ (Req Ev Tgt Blk Hs Ss Ds : Type)
        (env : EngineEnv Req Ev Tgt Blk Hs Ss Ds) (fuel : Nat) (h h' : Hs) (d : Ds)
        (req : DownloadRequest),
      env.handlerPoll h = (h', .Ready (.Download req)) →
      drain env (fuel + 1) h d =
        ((drain env fuel h' (env.downloaderOnAction d (.Download req))).1,
          (drain env fuel h' (env.downloaderOnAction d (.Download req))).2.1,
          .hpoll (.Ready (.Download req)) :: .daction (.Download req) ::
            (drain env fuel h' (env.downloaderOnAction d (.Download req))).2.2.1,
          (drain env fuel h' (env.downloaderOnAction d (.Download req))).2.2.2)) ∧
    (EngineHandler.poll scriptEnv 2 stateScenarioA).1.downloader.commands =
      [.Download (DownloadRequest.single_block hash1)] ∧
    (EngineHandler.poll scriptEnv 2 stateScenarioA).2.2 = .pending := by
  refine ⟨?_, by rfl, by decide⟩
  intro Req Ev Tgt Blk Hs Ss Ds env fuel h h' d req hq
  simp only [drain, hq]

/-- C9 witness: the scripted Scenario A handler at its first poll. -/
theorem claim_C9_witness :
    scriptEnv.handlerPoll ⟨[], [.Ready (.Download (DownloadRequest.single_block hash1))]⟩ =
      (⟨[], []⟩, .Ready (.Download (DownloadRequest.single_block hash1))) ∧
    drain scriptEnv (0 + 1)
        ⟨[], [.Ready (.Download (DownloadRequest.single_block hash1))]⟩ ⟨[], []⟩ =
      ((drain scriptEnv 0 ⟨[], []⟩
          (scriptEnv.downloaderOnAction ⟨[], []⟩
            (.Download (DownloadRequest.single_block hash1)))).1,
        (drain scriptEnv 0 ⟨[], []⟩
          (scriptEnv.downloaderOnAction ⟨[], []⟩
            (.Download (DownloadRequest.single_block hash1)))).2.1,
        .hpoll (.Ready (.Download (DownloadRequest.single_block hash1))) ::
          .daction (.Download (DownloadRequest.single_block hash1)) ::
          (drain scriptEnv 0 ⟨[], []⟩
            (scriptEnv.downloaderOnAction ⟨[], []⟩
              (.Download (DownloadRequest.single_block hash1)))).2.2.1,
        (drain scriptEnv 0 ⟨[], []⟩
          (scriptEnv.downloaderOnAction ⟨[], []⟩
            (.Download (DownloadRequest.single_block hash1)))).2.2.2) :=
  ⟨by rfl,
    claim_C9_download_needed_forwarded.1 Nat Nat Nat Nat ScriptedHandler ScriptedStream
      ScriptedDownloader scriptEnv 0
      ⟨[], [.Ready (.Download (DownloadRequest.single_block hash1))]⟩ ⟨[], []⟩ ⟨[], []⟩
      (DownloadRequest.single_block hash1) (by rfl)⟩

/-- C10 (implicit): `DownloadAction::Clear` is issued only on the path that
returns `Ready(BackfillAction(target))` in the same step: if a `poll` trace
contains a clear command, the poll returned a backfill request and the clear
command is the final interaction of the step. -/
theorem claim_C10_clear_only_for_backfill {Req Ev Tgt Blk Hs Ss Ds : Type}
    (env : EngineEnv Req Ev Tgt Blk Hs Ss Ds) (fuel : Nat) (s : EngineHandler Hs Ss Ds)
    (hc : @TraceItem.daction Req Ev Tgt Blk DownloadAction.Clear ∈ (EngineHandler.poll env fuel s).2.1) :
    ∃ tgt, (EngineHandler.poll env fuel s).2.2 = .ready (.BackfillAction tgt) ∧
      (EngineHandler.poll env fuel s).2.1.getLast? = some (.daction .Clear) := by
  rcases poll_clear_mem env fuel s hc with ⟨tgt, htgt⟩
  exact ⟨tgt, htgt, poll_backfill_last_clear env fuel s tgt htgt⟩

/-- C10 witness: the backfill scenario contains a clear command. -/
theorem claim_C10_witness :
    @TraceItem.daction Nat Nat Nat Nat DownloadAction.Clear ∈ (EngineHandler.poll scriptEnv 1 stateBackfill).2.1 ∧
    ∃ tgt, (EngineHandler.poll scriptEnv 1 stateBackfill).2.2 =
        .ready (.BackfillAction tgt) ∧
      (EngineHandler.poll scriptEnv 1 stateBackfill).2.1.getLast? =
        some (.daction .Clear) :=
  ⟨by decide, claim_C10_clear_only_for_backfill scriptEnv 1 stateBackfill (by decide)⟩

end RethEngine
